import Mathlib

/-!
Verification of the incremental content-addressed indexing engine of the
`aws-rag` repository (`src/populate_database.py`, `src/utils/get_sqlitestore.py`).

The Python code is shallowly embedded: each Python function becomes a Lean
function over explicit data; the external collaborators (PDF loader, the
langchain text splitters, the SHA hashes, the Chroma vector store) are
parameters of the embedding.  Python's `str(i)` on a non-negative integer is
modelled by `natRepr` below, a fuel-based decimal printer that the kernel can
evaluate and whose injectivity is proved.
-/

namespace AwsRag

/-- Decimal digits of `n`, most significant first, via explicit fuel so that
the kernel can reduce it on closed inputs. -/
def natDigitsGo : Nat → Nat → List Char
  | 0, _ => []
  | fuel + 1, n => if n = 0 then [] else natDigitsGo fuel (n / 10) ++ [Char.ofNat (48 + n % 10)]

/-- Model of Python `str(i)` for a non-negative integer `i`. -/
def natRepr (n : Nat) : String :=
  if n = 0 then "0" else ⟨natDigitsGo (n + 1) n⟩

/-- Value of a digit list, most significant first. -/
def digitsVal : List Char → Nat
  | [] => 0
  | c :: cs => (c.toNat - 48) * 10 ^ cs.length + digitsVal cs

theorem digitsVal_append_singleton (cs : List Char) (c : Char) :
    digitsVal (cs ++ [c]) = digitsVal cs * 10 + (c.toNat - 48) := by
  induction cs with
  | nil => simp [digitsVal]
  | cons d ds ih =>
      show (d.toNat - 48) * 10 ^ ((ds ++ [c]).length) + digitsVal (ds ++ [c]) =
        ((d.toNat - 48) * 10 ^ ds.length + digitsVal ds) * 10 + (c.toNat - 48)
      rw [ih, List.length_append]
      simp only [List.length_cons, List.length_nil, Nat.zero_add, pow_succ]
      ring

theorem digitsVal_natDigitsGo : ∀ (fuel n : Nat), n ≤ fuel → digitsVal (natDigitsGo fuel n) = n := by
  intro fuel
  induction fuel with
  | zero => intro n hn; interval_cases n; simp [natDigitsGo, digitsVal]
  | succ f ih =>
      intro n hn
      by_cases h0 : n = 0
      · simp [natDigitsGo, h0, digitsVal]
      · have hdiv : n / 10 ≤ f := by
          have : n / 10 < n := Nat.div_lt_self (Nat.pos_of_ne_zero h0) (by omega)
          omega
        have hc : (Char.ofNat (48 + n % 10)).toNat = 48 + n % 10 := by
          have hlt : n % 10 < 10 := Nat.mod_lt _ (by omega)
          interval_cases h : n % 10 <;> decide
        simp only [natDigitsGo, h0, if_false, digitsVal_append_singleton, ih _ hdiv, hc]
        omega

theorem natRepr_injective : Function.Injective natRepr := by
  intro n m h
  by_cases hn : n = 0 <;> by_cases hm : m = 0
  · omega
  · exfalso
    simp only [natRepr, hn, if_true, hm, if_false] at h
    have hd : natDigitsGo (m + 1) m = ['0'] := by
      have := congrArg String.data h
      simpa using this.symm
    have := digitsVal_natDigitsGo (m + 1) m (by omega)
    rw [hd] at this
    simp [digitsVal] at this
    omega
  · exfalso
    simp only [natRepr, hn, if_false, hm, if_true] at h
    have hd : natDigitsGo (n + 1) n = ['0'] := by
      have := congrArg String.data h
      simpa using this
    have := digitsVal_natDigitsGo (n + 1) n (by omega)
    rw [hd] at this
    simp [digitsVal] at this
    omega
  · simp only [natRepr, hn, hm, if_false] at h
    have hd : natDigitsGo (n + 1) n = natDigitsGo (m + 1) m := congrArg String.data h
    have h1 := digitsVal_natDigitsGo (n + 1) n (by omega)
    have h2 := digitsVal_natDigitsGo (m + 1) m (by omega)
    rw [hd] at h1
    omega

theorem string_append_cancel_left {s a b : String} (h : s ++ a = s ++ b) : a = b := by
  have hd := congrArg String.data h
  simp only [String.data_append] at hd
  exact String.ext (List.append_cancel_left hd)

/-! ### Data model

`RawDoc` is a langchain `Document` as produced by the loader / splitters:
text plus `source` and optional `page` metadata.  `MetaDoc` is a document
after `generate_documents_with_metadata` ran: it additionally carries `id`,
`hash`, and (for child chunks) `parent_id` metadata. -/

structure RawDoc where
  pageContent : String
  source : String
  page : Option Nat
deriving DecidableEq, Inhabited, Repr

structure MetaDoc where
  pageContent : String
  source : String
  page : Option Nat
  id : String
  hash : String
  parentId : Option String := none
deriving DecidableEq, Inhabited, Repr

/-- `chunk_list` from `populate_database.py`:
`[lst[i:i + chunk_size] for i in range(0, len(lst), chunk_size)]`,
rendered as the equivalent take/drop recursion (for `chunk_size ≥ 1`),
with explicit fuel so the kernel can evaluate it on closed inputs. -/
def chunk_list_go : Nat → List α → Nat → List (List α)
  | 0, _, _ => []
  | fuel + 1, lst, n =>
    if lst.length = 0 ∨ n = 0 then []
    else lst.take n :: chunk_list_go fuel (lst.drop n) n

def chunk_list (lst : List α) (chunk_size : Nat) : List (List α) :=
  chunk_list_go (lst.length + 1) lst chunk_size

theorem chunk_list_go_flatten :
    ∀ (fuel : Nat) (lst : List α) (n : Nat), 0 < n → lst.length < fuel →
      (chunk_list_go fuel lst n).flatten = lst := by
  intro fuel
  induction fuel with
  | zero => intro lst n hn h; omega
  | succ f ih =>
      intro lst n hn h
      by_cases hc : lst.length = 0 ∨ n = 0
      · rcases hc with hc | hc
        · simp [chunk_list_go, hc, List.length_eq_zero.mp hc]
        · omega
      · have hlen0 : lst.length ≠ 0 := fun h0 => hc (Or.inl h0)
        have hn0 : n ≠ 0 := fun h0 => hc (Or.inr h0)
        simp only [chunk_list_go, if_neg hc, List.flatten_cons]
        rw [ih (lst.drop n) n hn (by rw [List.length_drop]; omega)]
        exact List.take_append_drop n lst

theorem chunk_list_go_mem_length_le :
    ∀ (fuel : Nat) (lst : List α) (n : Nat), lst.length < fuel →
      ∀ b ∈ chunk_list_go fuel lst n, b.length ≤ n := by
  intro fuel
  induction fuel with
  | zero => intro lst n h; omega
  | succ f ih =>
      intro lst n h b hb
      by_cases hc : lst.length = 0 ∨ n = 0
      · simp [chunk_list_go, if_pos hc] at hb
      · simp only [chunk_list_go, if_neg hc, List.mem_cons] at hb
        push_neg at hc
        rcases hb with rfl | hb
        · simp [List.length_take_le n lst]
        · exact ih (lst.drop n) n (by rw [List.length_drop]; omega) b hb

theorem chunk_list_go_dropLast_length :
    ∀ (fuel : Nat) (lst : List α) (n : Nat), lst.length < fuel →
      ∀ b ∈ (chunk_list_go fuel lst n).dropLast, b.length = n := by
  intro fuel
  induction fuel with
  | zero => intro lst n h; omega
  | succ f ih =>
      intro lst n h b hb
      by_cases hc : lst.length = 0 ∨ n = 0
      · simp [chunk_list_go, if_pos hc] at hb
      · simp only [chunk_list_go, if_neg hc] at hb
        push_neg at hc
        obtain ⟨hl0, hn0⟩ := hc
        have hdlen : (lst.drop n).length < f := by
          rw [List.length_drop]; omega
        rcases (Nat.lt_or_ge n lst.length).symm with hle | hgt
        · have hdrop : lst.drop n = [] := List.drop_eq_nil_of_le hle
          rcases f with _ | f2
          · simp [hdrop, chunk_list_go] at hb
          · simp [hdrop, chunk_list_go] at hb
        · have hne2 : ¬((lst.drop n).length = 0 ∨ n = 0) := by
            push_neg
            constructor
            · rw [List.length_drop]; omega
            · exact hn0
          rcases f with _ | f2
          · omega
          · rw [show chunk_list_go (f2 + 1) (lst.drop n) n
                  = (lst.drop n).take n :: chunk_list_go f2 ((lst.drop n).drop n) n from by
                simp only [chunk_list_go, if_neg hne2]] at hb
            rw [List.dropLast_cons₂] at hb
            rcases List.mem_cons.mp hb with rfl | hb2
            · rw [List.length_take]; omega
            · have hihh := ih (lst.drop n) n hdlen b
              rw [show chunk_list_go (f2 + 1) (lst.drop n) n
                    = (lst.drop n).take n :: chunk_list_go f2 ((lst.drop n).drop n) n from by
                  simp only [chunk_list_go, if_neg hne2]] at hihh
              exact hihh hb2

theorem chunk_list_nil (n : Nat) : chunk_list ([] : List α) n = [] := by
  simp [chunk_list, chunk_list_go]

theorem chunk_list_flatten (lst : List α) (n : Nat) (hn : 0 < n) :
    (chunk_list lst n).flatten = lst :=
  chunk_list_go_flatten (lst.length + 1) lst n hn (by omega)

theorem chunk_list_mem_length_le (lst : List α) (n : Nat) (_hn : 0 < n) :
    ∀ b ∈ chunk_list lst n, b.length ≤ n :=
  chunk_list_go_mem_length_le (lst.length + 1) lst n (by omega)

theorem chunk_list_dropLast_length (lst : List α) (n : Nat) (_hn : 0 < n) :
    ∀ b ∈ (chunk_list lst n).dropLast, b.length = n :=
  chunk_list_go_dropLast_length (lst.length + 1) lst n (by omega)

/-! ### `generate_documents_with_metadata`

The Python function walks the chunk list carrying two pieces of mutable
state, `last_page_id` and `current_chunk_index`; the embedding passes them
explicitly.  `ghash` models `generate_hash` (SHA-256 over the chunk text),
an external primitive. -/

def gen_meta_go (ghash : String → String) (source_chunk_idx : Option Nat) :
    Option String → Nat → List RawDoc → List MetaDoc
  | _, _, [] => []
  | last_page_id, current_chunk_index, document :: rest =>
    let current_page_id :=
      document.source ++
        (match source_chunk_idx with
          | some i => ":" ++ natRepr i
          | none => "") ++
        ":" ++ natRepr (document.page.getD 0)
    let new_index :=
      if some current_page_id = last_page_id then current_chunk_index + 1 else 0
    { pageContent := document.pageContent
      source := document.source
      page := document.page
      id := current_page_id ++ ":" ++ natRepr new_index
      hash := ghash document.pageContent
      parentId := none } ::
      gen_meta_go ghash source_chunk_idx (some current_page_id) new_index rest

def generate_documents_with_metadata (ghash : String → String) (documents : List RawDoc)
    (source_chunk_idx : Option Nat := none) : List MetaDoc :=
  gen_meta_go ghash source_chunk_idx none 0 documents

/-- The `(source, split_pass_index, page)` key of a chunk, exactly the
`current_page_id` string the code builds. -/
def chunkKey (source_chunk_idx : Option Nat) (d : RawDoc) : String :=
  d.source ++
    (match source_chunk_idx with
      | some i => ":" ++ natRepr i
      | none => "") ++
    ":" ++ natRepr (d.page.getD 0)

/-- Spec-side counter: length of the initial run of `k`s in a (reversed
prefix) key list.  Independent of the code's fold state. -/
def backRun (k : String) : List String → Nat
  | [] => 0
  | x :: xs => if x = k then backRun k xs + 1 else 0

/-- State abstraction: the chunk counter the fold carries after having
consumed (in reverse) the keys `rks`. -/
def cntOf : List String → Nat
  | [] => 0
  | k :: rest => backRun k rest

theorem gen_meta_go_length (ghash : String → String) (sci : Option Nat) :
    ∀ (docs : List RawDoc) (last : Option String) (cnt : Nat),
      (gen_meta_go ghash sci last cnt docs).length = docs.length := by
  intro docs
  induction docs with
  | nil => intro last cnt; rfl
  | cons d rest ih => intro last cnt; simp [gen_meta_go, ih]

theorem backRun_cons (k x : String) (xs : List String) :
    backRun k (x :: xs) = if x = k then backRun k xs + 1 else 0 := rfl

theorem gen_meta_go_id_spec (ghash : String → String) (sci : Option Nat) :
    ∀ (docs : List RawDoc) (rks : List String) (i : Nat)
      (h1 : i < (gen_meta_go ghash sci rks.head? (cntOf rks) docs).length)
      (h2 : i < docs.length),
      ((gen_meta_go ghash sci rks.head? (cntOf rks) docs).get ⟨i, h1⟩).id
        = chunkKey sci (docs.get ⟨i, h2⟩) ++ ":" ++
            natRepr (backRun (chunkKey sci (docs.get ⟨i, h2⟩))
              (((docs.take i).map (chunkKey sci)).reverse ++ rks)) := by
  intro docs
  induction docs with
  | nil => intro rks i h1 h2; simp at h2
  | cons d rest ih =>
      intro rks i h1 h2
      have hcnt : (if some (chunkKey sci d) = rks.head? then cntOf rks + 1 else 0)
          = backRun (chunkKey sci d) rks := by
        cases rks with
        | nil => simp [backRun]
        | cons k r =>
            by_cases hk : k = chunkKey sci d
            · subst hk
              simp [cntOf, backRun_cons]
            · have : ¬ some (chunkKey sci d) = (k :: r).head? := by
                simp [List.head?]
                intro hc
                exact hk hc.symm
              rw [if_neg this, backRun_cons, if_neg hk]
      cases i with
      | zero =>
          show (chunkKey sci d) ++ ":" ++
              natRepr (if some (chunkKey sci d) = rks.head? then cntOf rks + 1 else 0) = _
          rw [hcnt]
          simp
      | succ j =>
          have h2' : j < rest.length := by simpa using h2
          have hstep : gen_meta_go ghash sci (some (chunkKey sci d))
                (if some (chunkKey sci d) = rks.head? then cntOf rks + 1 else 0) rest
              = gen_meta_go ghash sci (chunkKey sci d :: rks).head?
                (cntOf (chunkKey sci d :: rks)) rest := by
            rw [hcnt]; rfl
          have h1' : j < (gen_meta_go ghash sci (chunkKey sci d :: rks).head?
              (cntOf (chunkKey sci d :: rks)) rest).length := by
            rw [gen_meta_go_length]; exact h2'
          have lhs_eq :
              ((gen_meta_go ghash sci rks.head? (cntOf rks) (d :: rest)).get ⟨j + 1, h1⟩).id
                = ((gen_meta_go ghash sci (chunkKey sci d :: rks).head?
                    (cntOf (chunkKey sci d :: rks)) rest).get ⟨j, h1'⟩).id := by
            show ((gen_meta_go ghash sci (some (chunkKey sci d))
                (if some (chunkKey sci d) = rks.head? then cntOf rks + 1 else 0) rest).get
                  ⟨j, _⟩).id = _
            congr 1
            exact List.get_of_eq hstep _
          rw [lhs_eq, ih (chunkKey sci d :: rks) j h1' h2']
          have htake : (((d :: rest).take (j + 1)).map (chunkKey sci)).reverse ++ rks
              = ((rest.take j).map (chunkKey sci)).reverse ++ (chunkKey sci d :: rks) := by
            simp [List.take_cons, List.reverse_cons, List.append_assoc]
          rw [htake]
          rfl

theorem backRun_append_of_all_eq (k : String) (xs ys : List String) (h : ∀ x ∈ xs, x = k) :
    backRun k (xs ++ ys) = xs.length + backRun k ys := by
  induction xs with
  | nil => simp
  | cons x xs ih =>
      have hx : x = k := h x (by simp)
      rw [List.cons_append, backRun_cons, if_pos hx, ih (fun y hy => h y (by simp [hy]))]
      simp only [List.length_cons]
      omega

/-- C2: the id assigned to the `i`-th chunk is its `(source, split-pass,
page)` key followed by a sequence counter that counts the immediately
preceding consecutive chunks sharing the same key (so it resets to zero
whenever the key changes); and the assignment is deterministic: two runs on
the same input produce identical ordered id sequences. -/
theorem C2_id_is_key_and_run_counter (ghash : String → String) (sci : Option Nat)
    (docs : List RawDoc) (i : Nat)
    (h1 : i < (generate_documents_with_metadata ghash docs sci).length)
    (h2 : i < docs.length) :
    ((generate_documents_with_metadata ghash docs sci).get ⟨i, h1⟩).id
      = chunkKey sci (docs.get ⟨i, h2⟩) ++ ":" ++
          natRepr (backRun (chunkKey sci (docs.get ⟨i, h2⟩))
            (((docs.take i).map (chunkKey sci)).reverse))
    ∧ (generate_documents_with_metadata ghash docs sci).map MetaDoc.id
        = (generate_documents_with_metadata ghash docs sci).map MetaDoc.id := by
  refine ⟨?_, rfl⟩
  have h1' : i < (gen_meta_go ghash sci ([] : List String).head? (cntOf []) docs).length := h1
  have hspec := gen_meta_go_id_spec ghash sci docs [] i h1' h2
  rw [List.append_nil] at hspec
  exact hspec

/-- Witness for C2 at a concrete three-chunk input: the second chunk shares
page 0 of "f.pdf" with the first, so its counter is 1. -/
theorem C2_id_is_key_and_run_counter_witness :
    ((generate_documents_with_metadata (fun t => t)
        [{ pageContent := "a", source := "f.pdf", page := some 0 },
         { pageContent := "b", source := "f.pdf", page := some 0 },
         { pageContent := "c", source := "f.pdf", page := some 1 }] none).get ⟨1, by decide⟩).id
      = chunkKey none (([{ pageContent := "a", source := "f.pdf", page := some 0 },
         { pageContent := "b", source := "f.pdf", page := some 0 },
         { pageContent := "c", source := "f.pdf", page := some 1 }] : List RawDoc).get ⟨1, by decide⟩)
        ++ ":" ++
        natRepr (backRun
          (chunkKey none (([{ pageContent := "a", source := "f.pdf", page := some 0 },
            { pageContent := "b", source := "f.pdf", page := some 0 },
            { pageContent := "c", source := "f.pdf", page := some 1 }] : List RawDoc).get ⟨1, by decide⟩))
          ((([{ pageContent := "a", source := "f.pdf", page := some 0 },
            { pageContent := "b", source := "f.pdf", page := some 0 },
            { pageContent := "c", source := "f.pdf", page := some 1 }] : List RawDoc).take 1).map
              (chunkKey none)).reverse) :=
  (C2_id_is_key_and_run_counter (fun t => t) none
    [{ pageContent := "a", source := "f.pdf", page := some 0 },
     { pageContent := "b", source := "f.pdf", page := some 0 },
     { pageContent := "c", source := "f.pdf", page := some 1 }] 1 (by decide) (by decide)).1

/-- C3 counterexample: three chunks of `s.pdf`, pages 0, 1, 0.  The first
and third chunks are distinct, share source and page (and split pass), yet
the run counter resets when page 1 intervenes, so both get id `s.pdf:0:0`. -/
theorem C3_counterexample :
    (([{ pageContent := "alpha", source := "s.pdf", page := some 0 },
       { pageContent := "beta", source := "s.pdf", page := some 1 },
       { pageContent := "gamma", source := "s.pdf", page := some 0 }] : List RawDoc).get
        ⟨0, by decide⟩).source
      = (([{ pageContent := "alpha", source := "s.pdf", page := some 0 },
       { pageContent := "beta", source := "s.pdf", page := some 1 },
       { pageContent := "gamma", source := "s.pdf", page := some 0 }] : List RawDoc).get
        ⟨2, by decide⟩).source
    ∧ (([{ pageContent := "alpha", source := "s.pdf", page := some 0 },
       { pageContent := "beta", source := "s.pdf", page := some 1 },
       { pageContent := "gamma", source := "s.pdf", page := some 0 }] : List RawDoc).get
        ⟨0, by decide⟩).page
      = (([{ pageContent := "alpha", source := "s.pdf", page := some 0 },
       { pageContent := "beta", source := "s.pdf", page := some 1 },
       { pageContent := "gamma", source := "s.pdf", page := some 0 }] : List RawDoc).get
        ⟨2, by decide⟩).page
    ∧ (([{ pageContent := "alpha", source := "s.pdf", page := some 0 },
       { pageContent := "beta", source := "s.pdf", page := some 1 },
       { pageContent := "gamma", source := "s.pdf", page := some 0 }] : List RawDoc).get
        ⟨0, by decide⟩)
      ≠ (([{ pageContent := "alpha", source := "s.pdf", page := some 0 },
       { pageContent := "beta", source := "s.pdf", page := some 1 },
       { pageContent := "gamma", source := "s.pdf", page := some 0 }] : List RawDoc).get
        ⟨2, by decide⟩)
    ∧ ((generate_documents_with_metadata (fun t => t)
        [{ pageContent := "alpha", source := "s.pdf", page := some 0 },
         { pageContent := "beta", source := "s.pdf", page := some 1 },
         { pageContent := "gamma", source := "s.pdf", page := some 0 }] none).get
          ⟨0, by decide⟩).id
      = ((generate_documents_with_metadata (fun t => t)
        [{ pageContent := "alpha", source := "s.pdf", page := some 0 },
         { pageContent := "beta", source := "s.pdf", page := some 1 },
         { pageContent := "gamma", source := "s.pdf", page := some 0 }] none).get
          ⟨2, by decide⟩).id := by
  refine ⟨rfl, rfl, by decide, ?_⟩
  decide

/-- C3 (amended): two chunks whose `(source, split-pass, page)` keys agree
with a common key `K` receive different ids whenever every chunk between
them in the input also carries key `K`, i.e. the same-key chunks form one
contiguous run.  (Unrestricted input order is refuted by the
counterexample.) -/
theorem C3_no_collision_within_run (ghash : String → String) (sci : Option Nat)
    (docs : List RawDoc) (K : String) (i j : Nat) (hij : i < j) (hj : j < docs.length)
    (h1i : i < (generate_documents_with_metadata ghash docs sci).length)
    (h1j : j < (generate_documents_with_metadata ghash docs sci).length)
    (hrun : ∀ t (ht : t < docs.length), i ≤ t → t ≤ j → chunkKey sci (docs.get ⟨t, ht⟩) = K) :
    ((generate_documents_with_metadata ghash docs sci).get ⟨i, h1i⟩).id
      ≠ ((generate_documents_with_metadata ghash docs sci).get ⟨j, h1j⟩).id := by
  intro heq
  have hi : i < docs.length := Nat.lt_trans hij hj
  have hki : chunkKey sci (docs.get ⟨i, hi⟩) = K := hrun i hi (Nat.le_refl i) (Nat.le_of_lt hij)
  have hkj : chunkKey sci (docs.get ⟨j, hj⟩) = K := hrun j hj (Nat.le_of_lt hij) (Nat.le_refl j)
  have hchar_i : ((generate_documents_with_metadata ghash docs sci).get ⟨i, h1i⟩).id
      = K ++ ":" ++ natRepr (backRun K (((docs.take i).map (chunkKey sci)).reverse)) := by
    have h := gen_meta_go_id_spec ghash sci docs [] i h1i hi
    rw [List.append_nil, hki] at h
    exact h
  have hchar_j : ((generate_documents_with_metadata ghash docs sci).get ⟨j, h1j⟩).id
      = K ++ ":" ++ natRepr (backRun K (((docs.take j).map (chunkKey sci)).reverse)) := by
    have h := gen_meta_go_id_spec ghash sci docs [] j h1j hj
    rw [List.append_nil, hkj] at h
    exact h
  have hsplit : docs.take j = docs.take i ++ (docs.drop i).take (j - i) := by
    rw [← List.take_add]
    congr 1
    omega
  have hall : ∀ x ∈ ((((docs.drop i).take (j - i)).map (chunkKey sci)).reverse), x = K := by
    intro x hx
    rw [List.mem_reverse, List.mem_map] at hx
    obtain ⟨d, hd, rfl⟩ := hx
    rw [List.mem_iff_getElem] at hd
    obtain ⟨n, hn, rfl⟩ := hd
    have hlen : n < j - i := by
      have := hn
      rw [List.length_take] at this
      omega
    have hn2 : n < (docs.drop i).length := by
      have := hn
      rw [List.length_take] at this
      omega
    have hb : i + n < docs.length := by
      rw [List.length_drop] at hn2
      omega
    rw [List.getElem_take, List.getElem_drop]
    have h2 := hrun (i + n) hb (Nat.le_add_right i n) (by omega)
    rw [List.get_eq_getElem] at h2
    exact h2
  have hcnt : backRun K (((docs.take j).map (chunkKey sci)).reverse)
      = (j - i) + backRun K (((docs.take i).map (chunkKey sci)).reverse) := by
    rw [hsplit, List.map_append, List.reverse_append]
    rw [backRun_append_of_all_eq K _ _ hall]
    congr 1
    rw [List.length_reverse, List.length_map, List.length_take, List.length_drop]
    omega
  rw [hchar_i, hchar_j, hcnt] at heq
  have hmid := string_append_cancel_left heq
  have := natRepr_injective hmid
  omega

/-- Witness for the amended C3 at a concrete input: chunks 0 and 1 of the
same page of `g.pdf` form a contiguous run, hence distinct ids. -/
theorem C3_no_collision_within_run_witness :
    ((generate_documents_with_metadata (fun t => t)
        [{ pageContent := "a", source := "g.pdf", page := some 0 },
         { pageContent := "b", source := "g.pdf", page := some 0 }] none).get ⟨0, by decide⟩).id
      ≠ ((generate_documents_with_metadata (fun t => t)
        [{ pageContent := "a", source := "g.pdf", page := some 0 },
         { pageContent := "b", source := "g.pdf", page := some 0 }] none).get ⟨1, by decide⟩).id :=
  C3_no_collision_within_run (fun t => t) none
    [{ pageContent := "a", source := "g.pdf", page := some 0 },
     { pageContent := "b", source := "g.pdf", page := some 0 }]
    (chunkKey none { pageContent := "a", source := "g.pdf", page := some 0 })
    0 1 (by decide) (by decide) (by decide) (by decide)
    (by
      intro t ht h0 h1
      interval_cases t <;> rfl)

/-! ### `get_documents_to_add_or_update` (StoreDiffEngine)

`existing_ids` is the snapshot `set(vectorstore.get(include=[])["ids"])`;
`stored_hash id` is `vectorstore.get(ids=[id])["metadatas"][0].get("hash")`
for a present id (`None` when the stored metadata has no hash key).  The
Python guard `existing_doc and ...` never changes the branch because Chroma's
`get` returns a non-empty (truthy) dict. -/

def get_documents_to_add_or_update :
    List MetaDoc → List String → (String → Option String) → List MetaDoc × List MetaDoc
  | [], _, _ => ([], [])
  | document :: rest, existing_ids, stored_hash =>
    let r := get_documents_to_add_or_update rest existing_ids stored_hash
    if document.id ∈ existing_ids then
      if stored_hash document.id ≠ some document.hash then (r.1, document :: r.2) else r
    else (document :: r.1, r.2)

theorem diff_fst_mem_iff (docs : List MetaDoc) (E : List String) (sh : String → Option String)
    (x : MetaDoc) :
    x ∈ (get_documents_to_add_or_update docs E sh).1 ↔ x ∈ docs ∧ x.id ∉ E := by
  induction docs with
  | nil => simp [get_documents_to_add_or_update]
  | cons d rest ih =>
      by_cases hid : d.id ∈ E
      · by_cases hh : sh d.id ≠ some d.hash
        · simp only [get_documents_to_add_or_update, if_pos hid, if_pos hh, ih,
            List.mem_cons]
          constructor
          · rintro ⟨hx, hnx⟩; exact ⟨Or.inr hx, hnx⟩
          · rintro ⟨hx | hx, hnx⟩
            · subst hx; exact absurd hid hnx
            · exact ⟨hx, hnx⟩
        · simp only [get_documents_to_add_or_update, if_pos hid, if_neg hh, ih,
            List.mem_cons]
          constructor
          · rintro ⟨hx, hnx⟩; exact ⟨Or.inr hx, hnx⟩
          · rintro ⟨hx | hx, hnx⟩
            · subst hx; exact absurd hid hnx
            · exact ⟨hx, hnx⟩
      · simp only [get_documents_to_add_or_update, if_neg hid, List.mem_cons, ih]
        constructor
        · rintro (rfl | ⟨hx, hnx⟩)
          · exact ⟨Or.inl rfl, hid⟩
          · exact ⟨Or.inr hx, hnx⟩
        · rintro ⟨rfl | hx, hnx⟩
          · exact Or.inl rfl
          · exact Or.inr ⟨hx, hnx⟩

theorem diff_snd_mem_iff (docs : List MetaDoc) (E : List String) (sh : String → Option String)
    (x : MetaDoc) :
    x ∈ (get_documents_to_add_or_update docs E sh).2
      ↔ x ∈ docs ∧ x.id ∈ E ∧ sh x.id ≠ some x.hash := by
  induction docs with
  | nil => simp [get_documents_to_add_or_update]
  | cons d rest ih =>
      by_cases hid : d.id ∈ E
      · by_cases hh : sh d.id ≠ some d.hash
        · simp only [get_documents_to_add_or_update, if_pos hid, if_pos hh, List.mem_cons, ih]
          constructor
          · rintro (rfl | ⟨hx, he, hne⟩)
            · exact ⟨Or.inl rfl, hid, hh⟩
            · exact ⟨Or.inr hx, he, hne⟩
          · rintro ⟨rfl | hx, he, hne⟩
            · exact Or.inl rfl
            · exact Or.inr ⟨hx, he, hne⟩
        · push_neg at hh
          simp only [get_documents_to_add_or_update, if_pos hid, if_neg (not_not.mpr hh),
            List.mem_cons, ih]
          constructor
          · rintro ⟨hx, he, hne⟩; exact ⟨Or.inr hx, he, hne⟩
          · rintro ⟨rfl | hx, he, hne⟩
            · exact absurd hh hne
            · exact ⟨hx, he, hne⟩
      · simp only [get_documents_to_add_or_update, if_neg hid, List.mem_cons, ih]
        constructor
        · rintro ⟨hx, he, hne⟩; exact ⟨Or.inr hx, he, hne⟩
        · rintro ⟨rfl | hx, he, hne⟩
          · exact absurd he hid
          · exact ⟨hx, he, hne⟩

theorem diff_fst_sublist (docs : List MetaDoc) (E : List String) (sh : String → Option String) :
    (get_documents_to_add_or_update docs E sh).1.Sublist docs := by
  induction docs with
  | nil => simp [get_documents_to_add_or_update]
  | cons d rest ih =>
      by_cases hid : d.id ∈ E
      · by_cases hh : sh d.id ≠ some d.hash
        · simp only [get_documents_to_add_or_update, if_pos hid, if_pos hh]
          exact ih.cons d
        · simp only [get_documents_to_add_or_update, if_pos hid, if_neg hh]
          exact ih.cons d
      · simp only [get_documents_to_add_or_update, if_neg hid]
        exact ih.cons₂ d

theorem diff_snd_sublist (docs : List MetaDoc) (E : List String) (sh : String → Option String) :
    (get_documents_to_add_or_update docs E sh).2.Sublist docs := by
  induction docs with
  | nil => simp [get_documents_to_add_or_update]
  | cons d rest ih =>
      by_cases hid : d.id ∈ E
      · by_cases hh : sh d.id ≠ some d.hash
        · simp only [get_documents_to_add_or_update, if_pos hid, if_pos hh]
          exact ih.cons₂ d
        · simp only [get_documents_to_add_or_update, if_pos hid, if_neg hh]
          exact ih.cons d
      · simp only [get_documents_to_add_or_update, if_neg hid]
        exact ih.cons d

theorem diff_all_unchanged (docs : List MetaDoc) (E : List String) (sh : String → Option String)
    (h : ∀ x ∈ docs, x.id ∈ E ∧ sh x.id = some x.hash) :
    get_documents_to_add_or_update docs E sh = ([], []) := by
  induction docs with
  | nil => rfl
  | cons d rest ih =>
      obtain ⟨hid, hh⟩ := h d (by simp)
      simp only [get_documents_to_add_or_update, if_pos hid, if_neg (not_not.mpr hh),
        ih (fun x hx => h x (by simp [hx]))]

theorem diff_single_update (pre : List MetaDoc) (d : MetaDoc) (post : List MetaDoc)
    (E : List String) (sh : String → Option String)
    (hpre : ∀ x ∈ pre, x.id ∈ E ∧ sh x.id = some x.hash)
    (hpost : ∀ x ∈ post, x.id ∈ E ∧ sh x.id = some x.hash)
    (hd : d.id ∈ E) (hdh : sh d.id ≠ some d.hash) :
    get_documents_to_add_or_update (pre ++ d :: post) E sh = ([], [d]) := by
  induction pre with
  | nil =>
      simp only [List.nil_append, get_documents_to_add_or_update, if_pos hd, if_pos hdh,
        diff_all_unchanged post E sh hpost]
  | cons p ps ih =>
      obtain ⟨hid, hh⟩ := hpre p (by simp)
      simp only [List.cons_append, get_documents_to_add_or_update, if_pos hid,
        if_neg (not_not.mpr hh)]
      exact ih (fun x hx => hpre x (by simp [hx]))

/-- C1: the diff step classifies each candidate by id presence and hash
comparison: id absent from the snapshot ⇒ in `to_insert`; id present with a
stored hash differing from the candidate's ⇒ in `to_update`; id present with
an equal hash ⇒ in neither output.  The two outputs are disjoint and each
preserves input order (is a sublist of the input); and when every id is
present and exactly one candidate's hash differs, the output is exactly that
candidate in `to_update` with an empty `to_insert`. -/
theorem C1_diff_classification (docs : List MetaDoc) (E : List String)
    (sh : String → Option String) :
    (∀ d ∈ docs, d.id ∉ E → d ∈ (get_documents_to_add_or_update docs E sh).1)
    ∧ (∀ d ∈ docs, d.id ∈ E → sh d.id ≠ some d.hash →
        d ∈ (get_documents_to_add_or_update docs E sh).2)
    ∧ (∀ d ∈ docs, d.id ∈ E → sh d.id = some d.hash →
        d ∉ (get_documents_to_add_or_update docs E sh).1
          ∧ d ∉ (get_documents_to_add_or_update docs E sh).2)
    ∧ (∀ d : MetaDoc, ¬(d ∈ (get_documents_to_add_or_update docs E sh).1
          ∧ d ∈ (get_documents_to_add_or_update docs E sh).2))
    ∧ (get_documents_to_add_or_update docs E sh).1.Sublist docs
    ∧ (get_documents_to_add_or_update docs E sh).2.Sublist docs
    ∧ (∀ (pre post : List MetaDoc) (d : MetaDoc),
        docs = pre ++ d :: post →
        (∀ x ∈ pre, x.id ∈ E ∧ sh x.id = some x.hash) →
        (∀ x ∈ post, x.id ∈ E ∧ sh x.id = some x.hash) →
        d.id ∈ E → sh d.id ≠ some d.hash →
        get_documents_to_add_or_update docs E sh = ([], [d])) := by
  refine ⟨?_, ?_, ?_, ?_, diff_fst_sublist docs E sh, diff_snd_sublist docs E sh, ?_⟩
  · intro d hd hni
    exact (diff_fst_mem_iff docs E sh d).mpr ⟨hd, hni⟩
  · intro d hd hi hne
    exact (diff_snd_mem_iff docs E sh d).mpr ⟨hd, hi, hne⟩
  · intro d hd hi heq
    constructor
    · intro hmem
      exact absurd hi ((diff_fst_mem_iff docs E sh d).mp hmem).2
    · intro hmem
      exact absurd heq ((diff_snd_mem_iff docs E sh d).mp hmem).2.2
  · rintro d ⟨h1, h2⟩
    exact absurd ((diff_snd_mem_iff docs E sh d).mp h2).2.1 ((diff_fst_mem_iff docs E sh d).mp h1).2
  · rintro pre post d rfl hpre hpost hd hdh
    exact diff_single_update pre d post E sh hpre hpost hd hdh

/-- Witness for C1 at concrete inputs: a two-chunk candidate list whose ids
are both present in the snapshot; only the second chunk's hash differs, so
the diff returns `([], [second chunk])`. -/
theorem C1_diff_classification_witness :
    get_documents_to_add_or_update
        [{ pageContent := "pa", source := "A", page := some 0, id := "A:0:0", hash := "h1" },
         { pageContent := "pb", source := "A", page := some 0, id := "A:0:1", hash := "HX" }]
        ["A:0:0", "A:0:1"]
        (fun id => if id = "A:0:0" then some "h1" else if id = "A:0:1" then some "h2" else none)
      = ([], [{ pageContent := "pb", source := "A", page := some 0, id := "A:0:1", hash := "HX" }]) :=
  (C1_diff_classification
      [{ pageContent := "pa", source := "A", page := some 0, id := "A:0:0", hash := "h1" },
       { pageContent := "pb", source := "A", page := some 0, id := "A:0:1", hash := "HX" }]
      ["A:0:0", "A:0:1"]
      (fun id => if id = "A:0:0" then some "h1" else if id = "A:0:1" then some "h2" else none)).2.2.2.2.2.2
    [{ pageContent := "pa", source := "A", page := some 0, id := "A:0:0", hash := "h1" }]
    []
    { pageContent := "pb", source := "A", page := some 0, id := "A:0:1", hash := "HX" }
    rfl (by decide) (by decide) (by decide) (by decide)

/-! ### `Sqlitestore` (`src/utils/get_sqlitestore.py`)

The SQLite dict is modelled as an association list with unique keys
maintained by `dbSet`.  `mget` is
`[self.db[key] for key in keys if key in self.db.keys()]`. -/

def dbLookup (db : List (String × V)) (k : String) : Option V :=
  (db.find? (fun p => p.1 == k)).map Prod.snd

def dbSet (db : List (String × V)) (k : String) (v : V) : List (String × V) :=
  if (dbLookup db k).isSome then db.map (fun p => if p.1 = k then (k, v) else p)
  else db ++ [(k, v)]

def mget (db : List (String × V)) (keys : List String) : List V :=
  keys.filterMap (fun k => dbLookup db k)

def mset (db : List (String × V)) (key_value_pairs : List (String × V)) : List (String × V) :=
  key_value_pairs.foldl (fun acc kv => dbSet acc kv.1 kv.2) db

/-- `get_document_hash_from_store`: `mget([file_path])`, return the first
element when the result is truthy (non-empty), else `None`. -/
def get_document_hash_from_store (db : List (String × String)) (file_path : String) :
    Option String :=
  (mget db [file_path]).head?

/-! ### IndexWriter (`add_or_update_documents_to_vectorstore`)

The Python function iterates `chunk_list(documents, chunk_size)` and issues
one `vectorstore.add_documents` (Chroma upsert) call per batch, in order;
the value below is the exact sequence of upsert calls attempted.
`run_batches fails bs k` models the external store accepting or rejecting
each call: `fails i` says the i-th upsert call of the file raises, and a
raised exception aborts the loop (and the whole Python run). -/

def add_or_update_documents_to_vectorstore (documents : List MetaDoc) (chunk_size : Nat) :
    List (List MetaDoc) :=
  chunk_list documents chunk_size

def run_batches (fails : Nat → Bool) : List (List MetaDoc) → Nat → List (List MetaDoc) × Bool
  | [], _ => ([], true)
  | b :: rest, k =>
    if fails k then ([], false)
    else
      let r := run_batches fails rest (k + 1)
      (b :: r.1, r.2)

theorem run_batches_all_ok (fails : Nat → Bool) :
    ∀ (bs : List (List MetaDoc)) (k0 : Nat), (∀ j, j < bs.length → fails (k0 + j) = false) →
      run_batches fails bs k0 = (bs, true) := by
  intro bs
  induction bs with
  | nil => intro k0 h; rfl
  | cons b rest ih =>
      intro k0 h
      have h0 : fails k0 = false := by
        have := h 0 (by simp)
        simpa using this
      have hrest : ∀ j, j < rest.length → fails (k0 + 1 + j) = false := by
        intro j hj
        have := h (j + 1) (by simp; omega)
        rw [← this]
        congr 1
        omega
      simp only [run_batches, h0, Bool.false_eq_true, if_false, ih (k0 + 1) hrest]

theorem run_batches_stops_at_failure (fails : Nat → Bool) :
    ∀ (bs : List (List MetaDoc)) (k0 k : Nat), k < bs.length →
      fails (k0 + k) = true → (∀ j, j < k → fails (k0 + j) = false) →
      run_batches fails bs k0 = (bs.take k, false) := by
  intro bs
  induction bs with
  | nil => intro k0 k hk; simp at hk
  | cons b rest ih =>
      intro k0 k hk hfk hj
      cases k with
      | zero =>
          simp only [Nat.add_zero] at hfk
          simp [run_batches, hfk]
      | succ m =>
          have h0 : fails k0 = false := by
            have := hj 0 (by omega)
            simpa using this
          have hfm : fails (k0 + 1 + m) = true := by
            rw [← hfk]; congr 1; omega
          have hjm : ∀ j, j < m → fails (k0 + 1 + j) = false := by
            intro j hjlt
            have := hj (j + 1) (by omega)
            rw [← this]; congr 1; omega
          have hm : m < rest.length := by simpa using hk
          simp only [run_batches, h0, Bool.false_eq_true, if_false,
            ih (k0 + 1) m hm hfm hjm, List.take_succ_cons]

/-! ### `split_documents`

`parentSplit` models
`RecursiveCharacterTextSplitter(chunk_size=parent_chunk_size).split_documents`
and `childSplit` the child splitter applied to one parent (both are external
langchain code; langchain copies the input document's metadata onto every
piece, so a piece's `source`/`page` come from its parent).
`split_children_go` renders the `for idx, document in enumerate(new_documents)`
loop with its running index. -/

def split_children_go (childSplit : MetaDoc → List RawDoc) (ghash : String → String) :
    Nat → List MetaDoc → List MetaDoc
  | _, [] => []
  | idx, document :: rest =>
    (generate_documents_with_metadata ghash (childSplit document) (some idx)).map
        (fun sd => { sd with parentId := some document.id })
      ++ split_children_go childSplit ghash (idx + 1) rest

def split_documents (parentSplit : List RawDoc → List RawDoc)
    (childSplit : MetaDoc → List RawDoc) (ghash : String → String)
    (documents : List RawDoc) (child_chunk_size : Nat) :
    List MetaDoc × List MetaDoc :=
  let new_documents := generate_documents_with_metadata ghash (parentSplit documents) none
  let sub_documents :=
    if 0 < child_chunk_size then split_children_go childSplit ghash 0 new_documents else []
  (new_documents, sub_documents)

/-- `add_documents_to_store`, reduced to the decisions it makes: which
key/value pairs go to the doc store (`mset` of all parents, keyed by id, only
when sub-documents exist), and which chunks the diff marks new/updated for
the vector index. -/
def add_documents_to_store (documents sub_documents : List MetaDoc)
    (existing_ids : List String) (stored_hash : String → Option String) :
    List (String × MetaDoc) × List MetaDoc × List MetaDoc :=
  let vectorstore_documents := if sub_documents.isEmpty then documents else sub_documents
  let docstore_writes :=
    if sub_documents.isEmpty then [] else documents.map (fun d => (d.id, d))
  let r := get_documents_to_add_or_update vectorstore_documents existing_ids stored_hash
  (docstore_writes, r.1, r.2)

theorem generate_documents_with_metadata_ne_nil (ghash : String → String) (sci : Option Nat)
    (docs : List RawDoc) (h : docs ≠ []) :
    generate_documents_with_metadata ghash docs sci ≠ [] := by
  intro hnil
  have hlen := gen_meta_go_length ghash sci docs none 0
  have hnil2 : gen_meta_go ghash sci none 0 docs = [] := hnil
  rw [hnil2] at hlen
  simp only [List.length_nil] at hlen
  exact h (List.length_eq_zero.mp hlen.symm)

theorem split_children_go_mem_shape (childSplit : MetaDoc → List RawDoc)
    (ghash : String → String) :
    ∀ (parents : List MetaDoc) (k : Nat) (c : MetaDoc),
      c ∈ split_children_go childSplit ghash k parents →
      ∃ (i : Nat) (hi : i < parents.length),
        c.parentId = some (parents.get ⟨i, hi⟩).id
        ∧ c ∈ (generate_documents_with_metadata ghash (childSplit (parents.get ⟨i, hi⟩))
            (some (k + i))).map (fun sd => { sd with parentId := some (parents.get ⟨i, hi⟩).id }) := by
  intro parents
  induction parents with
  | nil => intro k c hc; simp [split_children_go] at hc
  | cons p rest ih =>
      intro k c hc
      rw [split_children_go, List.mem_append] at hc
      rcases hc with hc | hc
      · refine ⟨0, by simp, ?_, ?_⟩
        · rw [List.mem_map] at hc
          obtain ⟨sd, _, rfl⟩ := hc
          rfl
        · simpa using hc
      · obtain ⟨i, hi, hpid, hmem⟩ := ih (k + 1) c hc
        refine ⟨i + 1, by simpa using Nat.succ_lt_succ hi, ?_, ?_⟩
        · simpa using hpid
        · have : k + 1 + i = k + (i + 1) := by omega
          rw [this] at hmem
          simpa using hmem

theorem split_children_go_referenced (childSplit : MetaDoc → List RawDoc)
    (ghash : String → String) :
    ∀ (parents : List MetaDoc) (k : Nat) (p : MetaDoc), p ∈ parents → childSplit p ≠ [] →
      ∃ c ∈ split_children_go childSplit ghash k parents, c.parentId = some p.id := by
  intro parents
  induction parents with
  | nil => intro k p hp; simp at hp
  | cons q rest ih =>
      intro k p hp hne
      rcases List.mem_cons.mp hp with rfl | hp2
      · have hgne : generate_documents_with_metadata ghash (childSplit p) (some k) ≠ [] :=
          generate_documents_with_metadata_ne_nil ghash (some k) (childSplit p) hne
        refine ⟨{ (generate_documents_with_metadata ghash (childSplit p) (some k)).head hgne
            with parentId := some p.id }, ?_, rfl⟩
        rw [split_children_go, List.mem_append]
        left
        rw [List.mem_map]
        exact ⟨_, List.head_mem _, rfl⟩
      · obtain ⟨c, hc, hcp⟩ := ih (k + 1) p hp2 hne
        refine ⟨c, ?_, hcp⟩
        rw [split_children_go, List.mem_append]
        exact Or.inr hc

theorem split_children_go_ne_nil (childSplit : MetaDoc → List RawDoc) (ghash : String → String)
    (p : MetaDoc) (rest : List MetaDoc) (k : Nat) (hne : childSplit p ≠ []) :
    split_children_go childSplit ghash k (p :: rest) ≠ [] := by
  rw [split_children_go]
  intro hnil
  rw [List.append_eq_nil] at hnil
  have h1 := hnil.1
  rw [List.map_eq_nil_iff] at h1
  exact generate_documents_with_metadata_ne_nil ghash (some k) (childSplit p) hne h1

theorem gen_meta_go_mem_shape (ghash : String → String) (sci : Option Nat) :
    ∀ (docs : List RawDoc) (last : Option String) (cnt : Nat) (x : MetaDoc),
      x ∈ gen_meta_go ghash sci last cnt docs →
      ∃ d ∈ docs, ∃ c : Nat, x.source = d.source ∧ x.id = chunkKey sci d ++ ":" ++ natRepr c := by
  intro docs
  induction docs with
  | nil => intro last cnt x hx; simp [gen_meta_go] at hx
  | cons d rest ih =>
      intro last cnt x hx
      simp only [gen_meta_go] at hx
      rcases List.mem_cons.mp hx with rfl | hx2
      · exact ⟨d, by simp,
          (if some (chunkKey sci d) = last then cnt + 1 else 0), rfl, rfl⟩
      · obtain ⟨d2, hd2, c, hs, hid⟩ := ih _ _ x hx2
        exact ⟨d2, by simp [hd2], c, hs, hid⟩

/-! ### The per-file driver (`main`, lines 26-50)

`FileSpec` packages what the externals say about one file: its path, its
current SHA-1 digest (`get_file_hash`) and what `PyPDFLoader.load` returns
(`Except.error` when the loader raises).  `process_file` produces the
observable call trace, the new document-hashes store, and whether an
exception escaped (a raised exception propagates out of `main`, so the
corpus loop stops).  The trace events are: the doc-store `mset`, the vector
store snapshot query, each attempted batch upsert, and the digest-cache
write. -/

inductive Event where
  | loadFail (path : String)
  | docstoreSet (writes : List (String × MetaDoc))
  | vsQuery
  | vsUpsert (batch : List MetaDoc)
  | cacheSet (path : String) (digest : String)
deriving DecidableEq, Repr

structure FileSpec where
  path : String
  digest : String
  loadResult : Except String (List RawDoc)

structure PipelineParams where
  parentSplit : List RawDoc → List RawDoc
  childSplit : MetaDoc → List RawDoc
  ghash : String → String
  child_chunk_size : Nat
  existing_ids : List String
  stored_hash : String → Option String
  batch_size : Nat
  fails : Nat → Bool

/-- The writes a non-skipped file gives rise to: doc-store writes, the
ordered upsert batches (new chunks first, then updated chunks, exactly the
two `add_or_update_documents_to_vectorstore` calls), and whether the
sub-document list was empty. -/
def pipeline_plan (P : PipelineParams) (documents : List RawDoc) :
    List (String × MetaDoc) × List (List MetaDoc) × Bool :=
  let r := split_documents P.parentSplit P.childSplit P.ghash documents P.child_chunk_size
  let w := add_documents_to_store r.1 r.2 P.existing_ids P.stored_hash
  (w.1,
    add_or_update_documents_to_vectorstore w.2.1 P.batch_size
      ++ add_or_update_documents_to_vectorstore w.2.2 P.batch_size,
    r.2.isEmpty)

def process_file (P : PipelineParams) (cache : List (String × String)) (f : FileSpec) :
    List Event × List (String × String) × Bool :=
  let document_hash := get_document_hash_from_store cache f.path
  if some f.digest = document_hash then ([], cache, false)
  else
    match f.loadResult with
    | Except.error _ => ([Event.loadFail f.path], cache, true)
    | Except.ok documents =>
      let plan := pipeline_plan P documents
      let rb := run_batches P.fails plan.2.1 0
      let evs := (if plan.2.2 then [] else [Event.docstoreSet plan.1])
          ++ [Event.vsQuery] ++ rb.1.map Event.vsUpsert
      if rb.2 then
        (evs ++ [Event.cacheSet f.path f.digest], dbSet cache f.path f.digest, false)
      else (evs, cache, true)

def process_corpus (P : PipelineParams) :
    List (String × String) → List FileSpec → List Event × List (String × String) × Bool
  | cache, [] => ([], cache, false)
  | cache, f :: rest =>
    let r := process_file P cache f
    if r.2.2 then (r.1, r.2.1, true)
    else
      let r2 := process_corpus P r.2.1 rest
      (r.1 ++ r2.1, r2.2.1, r2.2.2)

/-- C8: for every chunk list and batch size `n ≥ 1`, the writer partitions
the list into consecutive batches whose concatenation is the input, each of
size at most `n`, all but possibly the last of size exactly `n`, and (when
the store accepts every call) applies exactly those batches in order via the
upsert primitive. -/
theorem C8_writer_batches (documents : List MetaDoc) (n : Nat) (hn : 1 ≤ n) :
    (add_or_update_documents_to_vectorstore documents n).flatten = documents
    ∧ (∀ b ∈ add_or_update_documents_to_vectorstore documents n, b.length ≤ n)
    ∧ (∀ b ∈ (add_or_update_documents_to_vectorstore documents n).dropLast, b.length = n)
    ∧ (∀ fails : Nat → Bool,
        (∀ j, j < (add_or_update_documents_to_vectorstore documents n).length → fails j = false) →
        run_batches fails (add_or_update_documents_to_vectorstore documents n) 0
          = (add_or_update_documents_to_vectorstore documents n, true)) :=
  ⟨chunk_list_flatten documents n hn, chunk_list_mem_length_le documents n hn,
   chunk_list_dropLast_length documents n hn,
   fun fails h => run_batches_all_ok fails _ 0
     (fun j hj => by simpa using h j hj)⟩

/-- Witness for C8: three chunks, batch size two. -/
theorem C8_writer_batches_witness :
    (add_or_update_documents_to_vectorstore
        [{ pageContent := "1", source := "w", page := none, id := "w:0:0", hash := "x" },
         { pageContent := "2", source := "w", page := none, id := "w:0:1", hash := "y" },
         { pageContent := "3", source := "w", page := none, id := "w:0:2", hash := "z" }] 2).flatten
      = [{ pageContent := "1", source := "w", page := none, id := "w:0:0", hash := "x" },
         { pageContent := "2", source := "w", page := none, id := "w:0:1", hash := "y" },
         { pageContent := "3", source := "w", page := none, id := "w:0:2", hash := "z" }] :=
  (C8_writer_batches
      [{ pageContent := "1", source := "w", page := none, id := "w:0:0", hash := "x" },
       { pageContent := "2", source := "w", page := none, id := "w:0:1", hash := "y" },
       { pageContent := "3", source := "w", page := none, id := "w:0:2", hash := "z" }] 2
      (by decide)).1

theorem filterMap_eq_filter_filterMap (f : String → Option V) :
    ∀ keys : List String,
      keys.filterMap f = (keys.filter (fun k => (f k).isSome)).filterMap f := by
  intro keys
  induction keys with
  | nil => rfl
  | cons k rest ih =>
      cases hf : f k with
      | none => simp [List.filterMap_cons, List.filter_cons, hf, ih]
      | some v => simp [List.filterMap_cons, List.filter_cons, hf, ih]

theorem filterMap_length_lt (f : String → Option V) :
    ∀ (keys : List String) (k : String), k ∈ keys → f k = none →
      (keys.filterMap f).length < keys.length := by
  intro keys
  induction keys with
  | nil => intro k hk; simp at hk
  | cons a rest ih =>
      intro k hk hfk
      rcases List.mem_cons.mp hk with rfl | hk2
      · rw [List.filterMap_cons, hfk]
        have := List.length_filterMap_le f rest
        simp only [List.length_cons]
        omega
      · cases hf : f a with
        | none =>
            rw [List.filterMap_cons, hf]
            have := ih k hk2 hfk
            simp only [List.length_cons]
            omega
        | some v =>
            rw [List.filterMap_cons, hf]
            have := ih k hk2 hfk
            simp only [List.length_cons]
            omega

/-- C10: the key-value store's multi-get keeps only the present keys'
values, in request order (it equals the lookup image of the presence-filtered
request); whenever some requested key is absent the result is strictly
shorter than the request, so positions no longer align; and the single-key
digest lookup returns exactly the stored value (`none` iff the path has no
record). -/
theorem C10_mget_semantics (db : List (String × String)) (keys : List String)
    (file_path : String) :
    mget db keys
      = (keys.filter (fun k => (dbLookup db k).isSome)).filterMap (fun k => dbLookup db k)
    ∧ (∀ k ∈ keys, dbLookup db k = none → (mget db keys).length < keys.length)
    ∧ get_document_hash_from_store db file_path = dbLookup db file_path := by
  refine ⟨filterMap_eq_filter_filterMap _ keys, ?_, ?_⟩
  · intro k hk hnone
    exact filterMap_length_lt _ keys k hk hnone
  · cases h : dbLookup db file_path with
    | none => simp [get_document_hash_from_store, mget, List.filterMap_cons, h]
    | some v => simp [get_document_hash_from_store, mget, List.filterMap_cons, h]

/-- Witness for C10: requesting a present and an absent key returns one
value, strictly fewer than the two requested. -/
theorem C10_mget_semantics_witness :
    (mget [("a.pdf", "h1")] ["a.pdf", "b.pdf"]).length < (["a.pdf", "b.pdf"] : List String).length :=
  (C10_mget_semantics [("a.pdf", "h1")] ["a.pdf", "b.pdf"] "a.pdf").2.1 "b.pdf"
    (by decide) (by decide)

theorem diff_all_new (docs : List MetaDoc) (E : List String) (sh : String → Option String)
    (h : ∀ x ∈ docs, x.id ∉ E) :
    get_documents_to_add_or_update docs E sh = (docs, []) := by
  induction docs with
  | nil => rfl
  | cons d rest ih =>
      have hd := h d (by simp)
      simp only [get_documents_to_add_or_update, if_neg hd,
        ih (fun x hx => h x (by simp [hx]))]

/-- C4: after a successful ingestion of a file with child splitting enabled
(`child_chunk_size > 0`) into an index not already holding the file's child
ids, the chunks the writer sends to the vector index are exactly the child
chunks, every such child carries a `parent_id` equal to a key written to the
document store, and every key written to the document store is referenced by
at least one such child.  The external child splitter is assumed to return
at least one piece per parent, its §4.1 contract. -/
theorem C4_parent_child_consistency (parentSplit : List RawDoc → List RawDoc)
    (childSplit : MetaDoc → List RawDoc) (ghash : String → String)
    (documents : List RawDoc) (child_chunk_size : Nat)
    (existing_ids : List String) (stored_hash : String → Option String)
    (hccs : 0 < child_chunk_size)
    (hne : ∀ p ∈ (split_documents parentSplit childSplit ghash documents child_chunk_size).1,
      childSplit p ≠ [])
    (hfresh : ∀ c ∈ (split_documents parentSplit childSplit ghash documents child_chunk_size).2,
      c.id ∉ existing_ids) :
    ((add_documents_to_store
        (split_documents parentSplit childSplit ghash documents child_chunk_size).1
        (split_documents parentSplit childSplit ghash documents child_chunk_size).2
        existing_ids stored_hash).2.1
      ++ (add_documents_to_store
        (split_documents parentSplit childSplit ghash documents child_chunk_size).1
        (split_documents parentSplit childSplit ghash documents child_chunk_size).2
        existing_ids stored_hash).2.2
      = (split_documents parentSplit childSplit ghash documents child_chunk_size).2)
    ∧ (∀ c ∈ (add_documents_to_store
        (split_documents parentSplit childSplit ghash documents child_chunk_size).1
        (split_documents parentSplit childSplit ghash documents child_chunk_size).2
        existing_ids stored_hash).2.1
      ++ (add_documents_to_store
        (split_documents parentSplit childSplit ghash documents child_chunk_size).1
        (split_documents parentSplit childSplit ghash documents child_chunk_size).2
        existing_ids stored_hash).2.2,
        ∃ k ∈ ((add_documents_to_store
            (split_documents parentSplit childSplit ghash documents child_chunk_size).1
            (split_documents parentSplit childSplit ghash documents child_chunk_size).2
            existing_ids stored_hash).1).map Prod.fst,
          c.parentId = some k)
    ∧ (∀ k ∈ ((add_documents_to_store
        (split_documents parentSplit childSplit ghash documents child_chunk_size).1
        (split_documents parentSplit childSplit ghash documents child_chunk_size).2
        existing_ids stored_hash).1).map Prod.fst,
        ∃ c ∈ (add_documents_to_store
            (split_documents parentSplit childSplit ghash documents child_chunk_size).1
            (split_documents parentSplit childSplit ghash documents child_chunk_size).2
            existing_ids stored_hash).2.1
          ++ (add_documents_to_store
            (split_documents parentSplit childSplit ghash documents child_chunk_size).1
            (split_documents parentSplit childSplit ghash documents child_chunk_size).2
            existing_ids stored_hash).2.2,
          c.parentId = some k) := by
  have h1 : (split_documents parentSplit childSplit ghash documents child_chunk_size).1
      = generate_documents_with_metadata ghash (parentSplit documents) none := by
    simp [split_documents]
  have hsubs : (split_documents parentSplit childSplit ghash documents child_chunk_size).2
      = split_children_go childSplit ghash 0
          (generate_documents_with_metadata ghash (parentSplit documents) none) := by
    simp [split_documents, hccs]
  rw [h1] at hne
  rw [hsubs] at hfresh
  rw [h1, hsubs]
  cases hp : generate_documents_with_metadata ghash (parentSplit documents) none with
  | nil =>
      rw [hp] at hne hfresh
      simp [split_children_go, add_documents_to_store, get_documents_to_add_or_update]
  | cons p ps =>
      rw [hp] at hne hfresh
      have hsub_ne : split_children_go childSplit ghash 0 (p :: ps) ≠ [] :=
        split_children_go_ne_nil childSplit ghash p ps 0 (hne p (by simp))
      have hisEmpty : (split_children_go childSplit ghash 0 (p :: ps)).isEmpty = false := by
        cases hsg : split_children_go childSplit ghash 0 (p :: ps) with
        | nil => exact absurd hsg hsub_ne
        | cons a l => rfl
      have hdiff : get_documents_to_add_or_update
          (split_children_go childSplit ghash 0 (p :: ps)) existing_ids stored_hash
          = (split_children_go childSplit ghash 0 (p :: ps), []) :=
        diff_all_new _ existing_ids stored_hash hfresh
      refine ⟨?_, ?_, ?_⟩
      · simp [add_documents_to_store, hisEmpty, hdiff]
      · intro c hc
        have hc2 : c ∈ split_children_go childSplit ghash 0 (p :: ps) := by
          simpa [add_documents_to_store, hisEmpty, hdiff] using hc
        obtain ⟨i, hi, hpid, _⟩ :=
          split_children_go_mem_shape childSplit ghash (p :: ps) 0 c hc2
        refine ⟨((p :: ps).get ⟨i, hi⟩).id, ?_, hpid⟩
        simp only [add_documents_to_store, hisEmpty, Bool.false_eq_true, if_false,
          List.map_map]
        exact List.mem_map.mpr ⟨(p :: ps).get ⟨i, hi⟩, List.get_mem _ _ _, rfl⟩
      · intro k hk
        simp only [add_documents_to_store, hisEmpty, Bool.false_eq_true, if_false,
          List.map_map] at hk
        obtain ⟨q, hq, hqk⟩ := List.mem_map.mp hk
        have hqk2 : q.id = k := hqk
        subst hqk2
        obtain ⟨c, hc, hcp⟩ :=
          split_children_go_referenced childSplit ghash (p :: ps) 0 q hq (hne q hq)
        refine ⟨c, ?_, hcp⟩
        simp [add_documents_to_store, hisEmpty, hdiff, hc]

/-- Witness for C4: one single-page document, identity parent splitter, a
child splitter emitting one piece per parent, fresh index. -/
theorem C4_parent_child_consistency_witness :
    (add_documents_to_store
        (split_documents (fun ds => ds)
          (fun p => [{ pageContent := p.pageContent, source := p.source, page := p.page }])
          (fun t => t) [{ pageContent := "p0", source := "f.pdf", page := some 0 }] 1).1
        (split_documents (fun ds => ds)
          (fun p => [{ pageContent := p.pageContent, source := p.source, page := p.page }])
          (fun t => t) [{ pageContent := "p0", source := "f.pdf", page := some 0 }] 1).2
        [] (fun _ => none)).2.1
      ++ (add_documents_to_store
        (split_documents (fun ds => ds)
          (fun p => [{ pageContent := p.pageContent, source := p.source, page := p.page }])
          (fun t => t) [{ pageContent := "p0", source := "f.pdf", page := some 0 }] 1).1
        (split_documents (fun ds => ds)
          (fun p => [{ pageContent := p.pageContent, source := p.source, page := p.page }])
          (fun t => t) [{ pageContent := "p0", source := "f.pdf", page := some 0 }] 1).2
        [] (fun _ => none)).2.2
      = (split_documents (fun ds => ds)
          (fun p => [{ pageContent := p.pageContent, source := p.source, page := p.page }])
          (fun t => t) [{ pageContent := "p0", source := "f.pdf", page := some 0 }] 1).2 :=
  (C4_parent_child_consistency (fun ds => ds)
    (fun p => [{ pageContent := p.pageContent, source := p.source, page := p.page }])
    (fun t => t) [{ pageContent := "p0", source := "f.pdf", page := some 0 }] 1
    [] (fun _ => none) (by decide) (by decide) (by decide)).1

/-- C9: the split-pass component baked into a child chunk's id is the
owning parent's ordinal index over the whole document's parent sequence
(the `enumerate` index across all pages, not a constant tag or a per-page
index): every child of the parent at position `i` has an id of the form
`source:i:...` while its `parent_id` points at that same position `i`;
consequently (second conjunct, on concrete runs) an extra parent chunk on an
earlier page shifts a later parent's ordinal and with it the ids of that
parent's children. -/
theorem C9_child_id_embeds_parent_ordinal (parentSplit : List RawDoc → List RawDoc)
    (childSplit : MetaDoc → List RawDoc) (ghash : String → String)
    (documents : List RawDoc) (child_chunk_size : Nat)
    (hccs : 0 < child_chunk_size) :
    (∀ c ∈ (split_documents parentSplit childSplit ghash documents child_chunk_size).2,
      ∃ (i : Nat)
        (hi : i < (split_documents parentSplit childSplit ghash documents child_chunk_size).1.length),
        c.parentId = some
          (((split_documents parentSplit childSplit ghash documents child_chunk_size).1).get
            ⟨i, hi⟩).id
        ∧ ∃ rest : String, c.id = c.source ++ ":" ++ natRepr i ++ ":" ++ rest)
    ∧ (((split_documents (fun ds => ds)
          (fun p => [{ pageContent := p.pageContent, source := p.source, page := p.page }])
          (fun t => t)
          [{ pageContent := "p0", source := "f", page := some 0 },
           { pageContent := "p1", source := "f", page := some 1 }] 1).2.get
            ⟨1, by decide⟩).pageContent
        = ((split_documents (fun ds => ds)
          (fun p => [{ pageContent := p.pageContent, source := p.source, page := p.page }])
          (fun t => t)
          [{ pageContent := "p0a", source := "f", page := some 0 },
           { pageContent := "p0b", source := "f", page := some 0 },
           { pageContent := "p1", source := "f", page := some 1 }] 1).2.get
            ⟨2, by decide⟩).pageContent
      ∧ ((split_documents (fun ds => ds)
          (fun p => [{ pageContent := p.pageContent, source := p.source, page := p.page }])
          (fun t => t)
          [{ pageContent := "p0", source := "f", page := some 0 },
           { pageContent := "p1", source := "f", page := some 1 }] 1).2.get
            ⟨1, by decide⟩).page
        = ((split_documents (fun ds => ds)
          (fun p => [{ pageContent := p.pageContent, source := p.source, page := p.page }])
          (fun t => t)
          [{ pageContent := "p0a", source := "f", page := some 0 },
           { pageContent := "p0b", source := "f", page := some 0 },
           { pageContent := "p1", source := "f", page := some 1 }] 1).2.get
            ⟨2, by decide⟩).page
      ∧ ((split_documents (fun ds => ds)
          (fun p => [{ pageContent := p.pageContent, source := p.source, page := p.page }])
          (fun t => t)
          [{ pageContent := "p0", source := "f", page := some 0 },
           { pageContent := "p1", source := "f", page := some 1 }] 1).2.get
            ⟨1, by decide⟩).id
        ≠ ((split_documents (fun ds => ds)
          (fun p => [{ pageContent := p.pageContent, source := p.source, page := p.page }])
          (fun t => t)
          [{ pageContent := "p0a", source := "f", page := some 0 },
           { pageContent := "p0b", source := "f", page := some 0 },
           { pageContent := "p1", source := "f", page := some 1 }] 1).2.get
            ⟨2, by decide⟩).id) := by
  constructor
  · intro c hc
    have hsubs : (split_documents parentSplit childSplit ghash documents child_chunk_size).2
        = split_children_go childSplit ghash 0
            (generate_documents_with_metadata ghash (parentSplit documents) none) := by
      simp [split_documents, hccs]
    rw [hsubs] at hc
    obtain ⟨i, hi, hpid, hmem⟩ := split_children_go_mem_shape childSplit ghash _ 0 c hc
    refine ⟨i, hi, hpid, ?_⟩
    rw [List.mem_map] at hmem
    obtain ⟨sd, hsd, rfl⟩ := hmem
    obtain ⟨d, hd, cnt, hsrc_eq, hid⟩ :=
      gen_meta_go_mem_shape ghash (some (0 + i)) _ none 0 sd hsd
    refine ⟨natRepr (d.page.getD 0) ++ ":" ++ natRepr cnt, ?_⟩
    show sd.id = sd.source ++ ":" ++ natRepr i ++ ":" ++ (natRepr (d.page.getD 0) ++ ":" ++ natRepr cnt)
    rw [hid, hsrc_eq]
    simp only [chunkKey, Nat.zero_add]
    simp [String.append_assoc]
  · refine ⟨rfl, rfl, ?_⟩
    decide

/-- Witness for C9: the single child of the only parent of a one-page run
satisfies the ordinal-id shape. -/
theorem C9_child_id_embeds_parent_ordinal_witness :
    ∃ (i : Nat)
      (hi : i < (split_documents (fun ds => ds)
        (fun p => [{ pageContent := p.pageContent, source := p.source, page := p.page }])
        (fun t => t) [{ pageContent := "w0", source := "w.pdf", page := some 0 }] 1).1.length),
      ((split_documents (fun ds => ds)
        (fun p => [{ pageContent := p.pageContent, source := p.source, page := p.page }])
        (fun t => t) [{ pageContent := "w0", source := "w.pdf", page := some 0 }] 1).2.get
          ⟨0, by decide⟩).parentId
        = some (((split_documents (fun ds => ds)
            (fun p => [{ pageContent := p.pageContent, source := p.source, page := p.page }])
            (fun t => t) [{ pageContent := "w0", source := "w.pdf", page := some 0 }] 1).1).get
              ⟨i, hi⟩).id
      ∧ ∃ rest : String,
          ((split_documents (fun ds => ds)
            (fun p => [{ pageContent := p.pageContent, source := p.source, page := p.page }])
            (fun t => t) [{ pageContent := "w0", source := "w.pdf", page := some 0 }] 1).2.get
              ⟨0, by decide⟩).id
            = ((split_documents (fun ds => ds)
              (fun p => [{ pageContent := p.pageContent, source := p.source, page := p.page }])
              (fun t => t) [{ pageContent := "w0", source := "w.pdf", page := some 0 }] 1).2.get
                ⟨0, by decide⟩).source ++ ":" ++ natRepr i ++ ":" ++ rest :=
  (C9_child_id_embeds_parent_ordinal (fun ds => ds)
    (fun p => [{ pageContent := p.pageContent, source := p.source, page := p.page }])
    (fun t => t) [{ pageContent := "w0", source := "w.pdf", page := some 0 }] 1
    (by decide)).1 _ (List.get_mem _ _ _)

/-- C6: a file whose freshly computed digest equals the cached digest is
skipped entirely — the trace is empty (zero vector-index calls, no load, no
writes) and the caches are untouched; with an absent or different cached
digest the file enters the pipeline: if it loads, the vector index is
queried. -/
theorem C6_digest_gate (P : PipelineParams) (cache : List (String × String)) (f : FileSpec) :
    (get_document_hash_from_store cache f.path = some f.digest →
      process_file P cache f = ([], cache, false))
    ∧ (get_document_hash_from_store cache f.path ≠ some f.digest →
        ∀ documents, f.loadResult = Except.ok documents →
          Event.vsQuery ∈ (process_file P cache f).1) := by
  constructor
  · intro hskip
    simp [process_file, hskip]
  · intro hns documents hld
    have hcond : ¬ (some f.digest = get_document_hash_from_store cache f.path) :=
      fun hc => hns hc.symm
    simp only [process_file, hld, if_neg hcond]
    by_cases hrb : (run_batches P.fails (pipeline_plan P documents).2.1 0).2
    · simp [hrb]
    · simp [hrb]

/-- Witness for C6: a cache already holding the digest of `a.pdf` makes the
file a no-op; and with an empty cache, the same file's processing queries
the vector index. -/
theorem C6_digest_gate_witness :
    process_file
        { parentSplit := fun ds => ds
          childSplit := fun p => [{ pageContent := p.pageContent, source := p.source, page := p.page }]
          ghash := fun t => t
          child_chunk_size := 0
          existing_ids := []
          stored_hash := fun _ => none
          batch_size := 500
          fails := fun _ => false }
        [("a.pdf", "d1")]
        { path := "a.pdf", digest := "d1",
          loadResult := Except.ok [{ pageContent := "t", source := "a.pdf", page := some 0 }] }
      = ([], [("a.pdf", "d1")], false)
    ∧ Event.vsQuery ∈ (process_file
        { parentSplit := fun ds => ds
          childSplit := fun p => [{ pageContent := p.pageContent, source := p.source, page := p.page }]
          ghash := fun t => t
          child_chunk_size := 0
          existing_ids := []
          stored_hash := fun _ => none
          batch_size := 500
          fails := fun _ => false }
        []
        { path := "a.pdf", digest := "d1",
          loadResult := Except.ok [{ pageContent := "t", source := "a.pdf", page := some 0 }] }).1 :=
  ⟨(C6_digest_gate
      { parentSplit := fun ds => ds
        childSplit := fun p => [{ pageContent := p.pageContent, source := p.source, page := p.page }]
        ghash := fun t => t
        child_chunk_size := 0
        existing_ids := []
        stored_hash := fun _ => none
        batch_size := 500
        fails := fun _ => false }
      [("a.pdf", "d1")]
      { path := "a.pdf", digest := "d1",
        loadResult := Except.ok [{ pageContent := "t", source := "a.pdf", page := some 0 }] }).1
    (by decide),
   (C6_digest_gate
      { parentSplit := fun ds => ds
        childSplit := fun p => [{ pageContent := p.pageContent, source := p.source, page := p.page }]
        ghash := fun t => t
        child_chunk_size := 0
        existing_ids := []
        stored_hash := fun _ => none
        batch_size := 500
        fails := fun _ => false }
      []
      { path := "a.pdf", digest := "d1",
        loadResult := Except.ok [{ pageContent := "t", source := "a.pdf", page := some 0 }] }).2
    (by decide) [{ pageContent := "t", source := "a.pdf", page := some 0 }] rfl⟩

/-- C5: on a non-skipped, successfully loaded file, if the k-th upsert call
fails while calls 0..k-1 succeed, then exactly the first k batches are
applied (no rollback), batch k and all later batches are not attempted, the
digest cache is not written, and processing aborts; and when every batch
succeeds, the digest-cache write happens, as the strictly last event of the
file, and only then. -/
theorem C5_batch_failure_semantics (P : PipelineParams) (cache : List (String × String))
    (f : FileSpec) (documents : List RawDoc)
    (hld : f.loadResult = Except.ok documents)
    (hns : get_document_hash_from_store cache f.path ≠ some f.digest) :
    (∀ k, k < (pipeline_plan P documents).2.1.length → P.fails k = true →
      (∀ j, j < k → P.fails j = false) →
      process_file P cache f
        = ((if (pipeline_plan P documents).2.2 then []
              else [Event.docstoreSet (pipeline_plan P documents).1])
            ++ [Event.vsQuery]
            ++ ((pipeline_plan P documents).2.1.take k).map Event.vsUpsert,
           cache, true))
    ∧ ((∀ j, j < (pipeline_plan P documents).2.1.length → P.fails j = false) →
      process_file P cache f
        = ((if (pipeline_plan P documents).2.2 then []
              else [Event.docstoreSet (pipeline_plan P documents).1])
            ++ [Event.vsQuery]
            ++ ((pipeline_plan P documents).2.1).map Event.vsUpsert
            ++ [Event.cacheSet f.path f.digest],
           dbSet cache f.path f.digest, false)) := by
  have hcond : ¬ (some f.digest = get_document_hash_from_store cache f.path) :=
    fun hc => hns hc.symm
  constructor
  · intro k hk hfk hj
    have hrb : run_batches P.fails (pipeline_plan P documents).2.1 0
        = ((pipeline_plan P documents).2.1.take k, false) :=
      run_batches_stops_at_failure P.fails _ 0 k hk (by simpa using hfk)
        (fun j hjk => by simpa using hj j hjk)
    simp only [process_file, hld, if_neg hcond, hrb, Bool.false_eq_true, if_false]
  · intro hall
    have hrb : run_batches P.fails (pipeline_plan P documents).2.1 0
        = ((pipeline_plan P documents).2.1, true) :=
      run_batches_all_ok P.fails _ 0 (fun j hj => by simpa using hall j hj)
    simp only [process_file, hld, if_neg hcond, hrb, if_true]

/-- Witness for C5: a store that rejects the first upsert call leaves only
the snapshot query in the trace, applies no batch, and does not write the
digest cache. -/
theorem C5_batch_failure_semantics_witness :
    process_file
        { parentSplit := fun ds => ds
          childSplit := fun p => [{ pageContent := p.pageContent, source := p.source, page := p.page }]
          ghash := fun t => t
          child_chunk_size := 0
          existing_ids := []
          stored_hash := fun _ => none
          batch_size := 500
          fails := fun _ => true }
        []
        { path := "b.pdf", digest := "d",
          loadResult := Except.ok [{ pageContent := "t", source := "b.pdf", page := some 0 }] }
      = ([Event.vsQuery], [], true) :=
  (C5_batch_failure_semantics
      { parentSplit := fun ds => ds
        childSplit := fun p => [{ pageContent := p.pageContent, source := p.source, page := p.page }]
        ghash := fun t => t
        child_chunk_size := 0
        existing_ids := []
        stored_hash := fun _ => none
        batch_size := 500
        fails := fun _ => true }
      []
      { path := "b.pdf", digest := "d",
        loadResult := Except.ok [{ pageContent := "t", source := "b.pdf", page := some 0 }] }
      [{ pageContent := "t", source := "b.pdf", page := some 0 }]
      rfl (by decide)).1 0 (by decide) rfl (fun j hj => absurd hj (by omega))

/-- C7 counterexample: a two-file corpus whose first file fails to load; the
run records the load failure and aborts — the second file is never touched
(no snapshot query in the trace) and the abort flag is set, contradicting
the claimed skip-and-continue behaviour. -/
theorem C7_counterexample :
    process_corpus
        { parentSplit := fun ds => ds
          childSplit := fun p => [{ pageContent := p.pageContent, source := p.source, page := p.page }]
          ghash := fun t => t
          child_chunk_size := 0
          existing_ids := []
          stored_hash := fun _ => none
          batch_size := 500
          fails := fun _ => false }
        []
        [{ path := "f1.pdf", digest := "d1", loadResult := Except.error "boom" },
         { path := "f2.pdf", digest := "d2",
           loadResult := Except.ok [{ pageContent := "t", source := "f2.pdf", page := some 0 }] }]
      = ([Event.loadFail "f1.pdf"], [], true)
    ∧ Event.vsQuery ∉ (process_corpus
        { parentSplit := fun ds => ds
          childSplit := fun p => [{ pageContent := p.pageContent, source := p.source, page := p.page }]
          ghash := fun t => t
          child_chunk_size := 0
          existing_ids := []
          stored_hash := fun _ => none
          batch_size := 500
          fails := fun _ => false }
        []
        [{ path := "f1.pdf", digest := "d1", loadResult := Except.error "boom" },
         { path := "f2.pdf", digest := "d2",
           loadResult := Except.ok [{ pageContent := "t", source := "f2.pdf", page := some 0 }] }]).1 := by
  constructor <;> decide

/-- C7 (amended): when a non-skipped file's loader raises, the failure is
recorded, the file's digest is not cached, and the run aborts: no later file
of the corpus is processed (`main` installs no exception handler, so the
loader's exception propagates out of the per-file loop). -/
theorem C7_load_error_aborts (P : PipelineParams) (cache : List (String × String))
    (f : FileSpec) (rest : List FileSpec) (e : String)
    (hns : get_document_hash_from_store cache f.path ≠ some f.digest)
    (hld : f.loadResult = Except.error e) :
    process_corpus P cache (f :: rest) = ([Event.loadFail f.path], cache, true) := by
  have hcond : ¬ (some f.digest = get_document_hash_from_store cache f.path) :=
    fun hc => hns hc.symm
  simp [process_corpus, process_file, hld, hcond]

/-- Witness for the amended C7 at a concrete corpus. -/
theorem C7_load_error_aborts_witness :
    process_corpus
        { parentSplit := fun ds => ds
          childSplit := fun p => [{ pageContent := p.pageContent, source := p.source, page := p.page }]
          ghash := fun t => t
          child_chunk_size := 0
          existing_ids := []
          stored_hash := fun _ => none
          batch_size := 500
          fails := fun _ => false }
        [("other.pdf", "h")]
        [{ path := "x.pdf", digest := "dx", loadResult := Except.error "unreadable" }]
      = ([Event.loadFail "x.pdf"], [("other.pdf", "h")], true) :=
  C7_load_error_aborts
    { parentSplit := fun ds => ds
      childSplit := fun p => [{ pageContent := p.pageContent, source := p.source, page := p.page }]
      ghash := fun t => t
      child_chunk_size := 0
      existing_ids := []
      stored_hash := fun _ => none
      batch_size := 500
      fails := fun _ => false }
    [("other.pdf", "h")]
    { path := "x.pdf", digest := "dx", loadResult := Except.error "unreadable" }
    [] "unreadable" (by decide) rfl

end AwsRag
